import Mathlib

/-!
# simd-stress: kernels, dispatch and worker loop

A shallow embedding of `src/simd-stress.c`.

* Memory blocks are bounds-checked byte lists; a pointer field of
  `struct thread_data` is modelled by the block it points to.  The four
  blocks of a context are separate values, as the four `calloc` calls of
  `init_thread_data` make them.
* C `int` / `int64_t` values are `Int`; signed overflow, an out-of-bounds
  access and a division by zero are undefined behaviour and end a run in
  `Outcome.fault`.  `unsigned long` values are `Nat` reduced modulo `2^64`.
* `time(NULL)` and `rdtsc` are read from an environment.
-/

namespace SimdStress

/-! ## Constants (lines 23-28) and C type widths -/

def BITS_PER_VECTOR : Nat := 512
def BYTES_PER_VECTOR : Nat := BITS_PER_VECTOR / 8
def WORDS_PER_VECTOR : Nat := BITS_PER_VECTOR / 16
def DWORD_PER_VECTOR : Nat := BITS_PER_VECTOR / 32
def ITERATIONS : Nat := 256

def sizeof_u_int8_t : Nat := 1
def sizeof_int8_t : Nat := 1
def sizeof_int32_t : Nat := 4

def INT_MAX : Int := 2147483647
def INT64_MAX : Int := 9223372036854775807
def INT64_MIN : Int := -9223372036854775808
def ULONG_MOD : Nat := 2 ^ 64

/-! ## Memory blocks -/

abbrev Byte := Fin 256
abbrev Buf := List Byte

/-- Bounds-checked read of `n` bytes at byte offset `off`. -/
def load (buf : Buf) (off n : Nat) : Option (List Byte) :=
  if off + n ≤ buf.length then some ((buf.drop off).take n) else none

/-- Bounds-checked write of the bytes `bs` at byte offset `off`. -/
def store (buf : Buf) (off : Nat) (bs : List Byte) : Option Buf :=
  if off + bs.length ≤ buf.length then
    some (buf.take off ++ bs ++ buf.drop (off + bs.length))
  else none

/-- Result of `calloc(nmemb, size)`: a zero-filled block of `nmemb * size`
bytes, or `NULL` (`none`) when the allocator has no memory (`avail = false`). -/
def calloc (avail : Bool) (nmemb size : Nat) : Option Buf :=
  if avail then some (List.replicate (nmemb * size) 0) else none

/-! ## 512-bit registers and their 64-bit lanes -/

/-- A 512-bit register, as its 64 bytes in memory order. -/
abbrev m512 := List Byte

/-- Little-endian value of a byte string. -/
def le_decode : List Byte → Nat
  | [] => 0
  | b :: bs => b.val + 256 * le_decode bs

/-- The `k` low-order bytes of `v`, least significant first. -/
def le_encode : Nat → Nat → List Byte
  | 0, _ => []
  | k + 1, v => ⟨v % 256, Nat.mod_lt _ (by decide)⟩ :: le_encode k (v / 256)

/-- The 64-bit little-endian lane of `v` that starts at byte offset `off`. -/
def lane_at (v : List Byte) (off : Nat) : Nat := le_decode ((v.drop off).take 8)

/-- Lane `j` of a register. -/
def lane (v : m512) (j : Nat) : Nat := lane_at v (8 * j)

/-- Register made of the given 64-bit lanes, lane 0 first. -/
def of_lanes : List Nat → m512
  | [] => []
  | q :: qs => le_encode 8 q ++ of_lanes qs

def mm512_loadu_si512 (buf : Buf) (off : Nat) : Option m512 := load buf off 64
def mm512_storeu_si512 (buf : Buf) (off : Nat) (v : m512) : Option Buf := store buf off v
def mm512_loadu_pd (buf : Buf) (off : Nat) : Option m512 := load buf off 64
def mm512_storeu_pd (buf : Buf) (off : Nat) (v : m512) : Option Buf := store buf off v

/-- One lane of VPMADD52HUQ as the instruction set reference gives it:
`tmp[127:0] := ZeroExtend64(b[51:0]) * ZeroExtend64(c[51:0])`,
`dst := a + ZeroExtend64(tmp[103:52])`, the sum kept to 64 bits. -/
def vpmadd52huq (a b c : Nat) : Nat :=
  let tmp := (b % 2 ^ 52) * (c % 2 ^ 52)
  (a + (tmp / 2 ^ 52) % 2 ^ 52) % 2 ^ 64

/-- The intrinsic `_mm512_madd52hi_epu64(a, b, c)`: VPMADD52HUQ on each of
the eight lanes. -/
def mm512_madd52hi_epu64 (a b c : m512) : m512 :=
  of_lanes ((List.range 8).map fun j => vpmadd52huq (lane a j) (lane b j) (lane c j))

/-- The intrinsic `_mm512_fmadd_pd(a, b, c)`: on each of the eight lanes the
double-precision fused multiply-add `a * b + c`.  The lane operation on
64-bit patterns is the parameter `fma`. -/
def mm512_fmadd_pd (fma : Nat → Nat → Nat → Nat) (a b c : m512) : m512 :=
  of_lanes ((List.range 8).map fun j => fma (lane a j) (lane b j) (lane c j))

/-! ## Worker context (lines 36-43) -/

structure thread_data where
  input_x : Buf
  input_y : Buf
  input_z : Buf
  input_ones : Buf
  output : Buf
  tid : Nat
  deriving DecidableEq, Repr

/-- Kernel `madd52hi_epu64` (lines 60-75), from loop index `i` on. -/
def madd52hi_epu64_from (i : Nat) (dp : thread_data) : Option thread_data :=
  if i < ITERATIONS then
    match mm512_loadu_si512 dp.input_x (i * BYTES_PER_VECTOR * sizeof_u_int8_t) with
    | none => none
    | some vx =>
      match mm512_loadu_si512 dp.input_y (i * BYTES_PER_VECTOR * sizeof_int8_t) with
      | none => none
      | some vy =>
        match mm512_loadu_si512 dp.input_z (i * DWORD_PER_VECTOR * sizeof_int32_t) with
        | none => none
        | some vz =>
          let voutput := mm512_madd52hi_epu64 vz vx vy
          match mm512_storeu_si512 dp.output (i * DWORD_PER_VECTOR * sizeof_int32_t) voutput with
          | none => none
          | some out => madd52hi_epu64_from (i + 1) { dp with output := out }
  else some dp
termination_by ITERATIONS - i

def madd52hi_epu64 (dp : thread_data) : Option thread_data :=
  madd52hi_epu64_from 0 dp

/-- Kernel `fmadd_pd` (lines 78-93), from loop index `i` on. -/
def fmadd_pd_from (fma : Nat → Nat → Nat → Nat) (i : Nat) (td : thread_data) :
    Option thread_data :=
  if i < ITERATIONS then
    match mm512_loadu_pd td.input_x (i * BYTES_PER_VECTOR * sizeof_u_int8_t) with
    | none => none
    | some vx =>
      match mm512_loadu_pd td.input_y (i * BYTES_PER_VECTOR * sizeof_int8_t) with
      | none => none
      | some vy =>
        match mm512_loadu_pd td.input_z (i * DWORD_PER_VECTOR * sizeof_int32_t) with
        | none => none
        | some vz =>
          let voutput := mm512_fmadd_pd fma vz vx vy
          match mm512_storeu_pd td.output (i * DWORD_PER_VECTOR * sizeof_int32_t) voutput with
          | none => none
          | some out => fmadd_pd_from fma (i + 1) { td with output := out }
  else some td
termination_by ITERATIONS - i

def fmadd_pd (fma : Nat → Nat → Nat → Nat) (td : thread_data) : Option thread_data :=
  fmadd_pd_from fma 0 td

/-! ## Spin kernel (lines 95-102) -/

/-- State of `nop_loop` on leaving the loop: the counter `i`, the number of
times the loop condition was evaluated and the number of times the (empty)
loop body ran. -/
structure NopRun where
  i : Int
  evals : Nat
  bodies : Nat
  deriving DecidableEq, Repr

/-- The loop `while (i++ < nop_per_loop);` from counter value `i`, after
`evals` evaluations of the condition and `bodies` runs of the body.  Each
evaluation compares the old value of `i` and increments it; incrementing
`INT_MAX` is undefined. -/
def nop_loop_from (nop_per_loop : Int) (i : Int) (evals bodies : Nat) : Option NopRun :=
  if i + 1 ≤ INT_MAX then
    if i < nop_per_loop then nop_loop_from nop_per_loop (i + 1) (evals + 1) (bodies + 1)
    else some { i := i + 1, evals := evals + 1, bodies := bodies }
  else none
termination_by (nop_per_loop - i).toNat
decreasing_by omega

def nop_loop (nop_per_loop : Int) : Option NopRun :=
  nop_loop_from nop_per_loop 0 0 0

/-! ## Program state -/

inductive Kernel where
  | nop_loop
  | madd52hi_epu64
  | fmadd_pd
  deriving DecidableEq, Repr

/-- Observable steps of a worker, in program order. -/
inductive Event where
  | sample (t : Int)
  | invoke (k : Kernel)
  deriving DecidableEq, Repr

/-- Lines written by `worker_thread`: line 191 and line 202. -/
inductive Line where
  | start_running (duration : Int) (desc : String)
  | throughput (lps : Int)
  deriving DecidableEq, Repr

/-- The globals of lines 34 and 95. -/
structure Globals where
  simd_ins : Int
  thread_nr : Int
  duration_sec : Int
  nop_per_loop : Int
  deriving DecidableEq, Repr

/-- What the program reads from outside: the lane operation of the
floating-point unit, the successive values of the cycle counter, and what a
read of `instruction_desc` past its three entries yields (`none` when the
access traps). -/
structure Env where
  fma : Nat → Nat → Nat → Nat
  tsc : Nat → Nat
  stray_desc : Int → Option String

/-- One worker: its context, the steps taken so far, the lines printed so
far and the number of cycle-counter reads made. -/
structure World where
  td : thread_data
  trace : List Event
  stdout : List Line
  tsc_reads : Nat
  deriving DecidableEq, Repr

/-- How a call ends: normal return, `exit(status)`, undefined behaviour, or
the supplied clock samples ran out while the loop was still running. -/
inductive Outcome (α : Type) where
  | ret (a : α) (w : World)
  | exit (status : Int) (w : World)
  | fault (w : World)
  | starved (w : World)
  deriving DecidableEq, Repr

/-- The worker state an outcome ends in. -/
def Outcome.world {α : Type} : Outcome α → World
  | .ret _ w => w
  | .exit _ w => w
  | .fault w => w
  | .starved w => w

/-! ## Dispatch (lines 104-114) -/

/-- A call of kernel `k`: the call is recorded, then the body runs on the
context. -/
def call_kernel (k : Kernel) (body : thread_data → Option thread_data) (w : World) :
    Outcome Unit :=
  let w1 := { w with trace := w.trace ++ [Event.invoke k] }
  match body w1.td with
  | some td => .ret () { w1 with td := td }
  | none => .fault w1

def run_simd (env : Env) (g : Globals) (type : Int) (w : World) : Outcome Unit :=
  if type = 0 then
    call_kernel .nop_loop (fun td => (nop_loop g.nop_per_loop).map fun _ => td) w
  else if type = 1 then
    call_kernel .madd52hi_epu64 madd52hi_epu64 w
  else if type = 2 then
    call_kernel .fmadd_pd (fmadd_pd env.fma) w
  else
    .exit 1 w

/-- The kernel a valid selector stands for. -/
def kernel_of (type : Int) : Option Kernel :=
  if type = 0 then some .nop_loop
  else if type = 1 then some .madd52hi_epu64
  else if type = 2 then some .fmadd_pd
  else none

/-- Repeated dispatch: `n` calls of `run_simd` in a row. -/
def run_simd_times (env : Env) (g : Globals) (type : Int) : Nat → World → Outcome Unit
  | 0, w => .ret () w
  | n + 1, w =>
    match run_simd env g type w with
    | .ret _ w1 => run_simd_times env g type n w1
    | o => o

/-! ## Worker (lines 129-133, 184-205) -/

def instruction_desc : List String := ["nop_loop", "vpmadd52huq", "vfmadd231pd"]

/-- The read `instruction_desc[k]`. -/
def instruction_desc_at (env : Env) (k : Int) : Option String :=
  if 0 ≤ k ∧ k < 3 then instruction_desc[k.toNat]? else env.stray_desc k

/-- Checked `int64_t` addition. -/
def add_i64 (a b : Int) : Option Int :=
  if INT64_MIN ≤ a + b ∧ a + b ≤ INT64_MAX then some (a + b) else none

/-- The right-hand side `start + 1 + duration_sec` of the loop condition. -/
def deadline (start duration_sec : Int) : Option Int :=
  match add_i64 start 1 with
  | none => none
  | some s => add_i64 s duration_sec

/-- Conversion of an `int` to `unsigned long`. -/
def to_ulong (n : Int) : Nat := (n % 2 ^ 64).toNat

/-- The value `%ld` prints for an `unsigned long` argument. -/
def to_long (u : Nat) : Int := if u < 2 ^ 63 then u else u - 2 ^ 64

/-- One read of the cycle counter. -/
def rdtsc (env : Env) (w : World) : Nat × World :=
  (env.tsc w.tsc_reads % ULONG_MOD, { w with tsc_reads := w.tsc_reads + 1 })

/-- The locals `total` and `loops` of `worker_thread`. -/
structure Locals where
  total : Nat
  loops : Nat
  deriving DecidableEq, Repr

/-- The loop of lines 195-201.  `clock` holds the values the successive
calls of `time(NULL)` at the loop condition return. -/
def worker_loop (env : Env) (g : Globals) (start : Int) :
    List Int → Locals → World → Outcome Locals
  | [], _, w => .starved w
  | t :: clock, l, w =>
    let w0 := { w with trace := w.trace ++ [Event.sample t] }
    match deadline start g.duration_sec with
    | none => .fault w0
    | some d =>
      if t < d then
        let before := rdtsc env w0
        match run_simd env g g.simd_ins before.2 with
        | .ret _ w1 =>
          let after := rdtsc env w1
          worker_loop env g start clock
            { total := (l.total + (after.1 + ULONG_MOD - before.1) % ULONG_MOD) % ULONG_MOD,
              loops := (l.loops + 1) % ULONG_MOD }
            after.2
        | .exit s w1 => .exit s w1
        | .fault w1 => .fault w1
        | .starved w1 => .starved w1
      else .ret l w0

/-- The function `worker_thread`.  The first element of `clock` is the value
of `time(NULL)` at line 194, the others are read at the loop condition. -/
def worker_thread (env : Env) (g : Globals) (clock : List Int) (w : World) : Outcome Unit :=
  match instruction_desc_at env g.simd_ins with
  | none => .fault w
  | some desc =>
    let w0 := { w with stdout := w.stdout ++ [Line.start_running g.duration_sec desc] }
    match clock with
    | [] => .starved w0
    | start :: clock =>
      match worker_loop env g start clock { total := 0, loops := 0 } w0 with
      | .ret l w1 =>
        if to_ulong g.duration_sec = 0 then .fault w1
        else
          .ret () { w1 with
            stdout := w1.stdout ++ [Line.throughput (to_long (l.loops / to_ulong g.duration_sec))] }
      | .exit s w1 => .exit s w1
      | .fault w1 => .fault w1
      | .starved w1 => .starved w1

/-! ## Buffer set-up (lines 207-220) -/

/-- The function `init_thread_data`: the updated context and the return
value 0, or the status of `exit`.  The four flags say whether the four
`calloc` calls, in program order, find memory. -/
def init_thread_data (ax ay az aout : Bool) (td : thread_data) : Except Int (thread_data × Int) :=
  let x := calloc ax ITERATIONS (BYTES_PER_VECTOR * sizeof_u_int8_t)
  let y := calloc ay ITERATIONS (BYTES_PER_VECTOR * sizeof_int8_t)
  let z := calloc az ITERATIONS (DWORD_PER_VECTOR * sizeof_int32_t)
  match x, y, z with
  | some bx, some b_y, some bz =>
    match calloc aout ITERATIONS (DWORD_PER_VECTOR * sizeof_int32_t) with
    | some bo =>
      .ok ({ td with input_x := bx, input_y := b_y, input_z := bz, output := bo }, 0)
    | none => .error 1
  | _, _, _ => .error 1

/-- The size invariant of a worker context: each of the four blocks holds
`ITERATIONS * BYTES_PER_VECTOR` bytes. -/
def thread_data.sized (td : thread_data) : Prop :=
  td.input_x.length = ITERATIONS * BYTES_PER_VECTOR ∧
  td.input_y.length = ITERATIONS * BYTES_PER_VECTOR ∧
  td.input_z.length = ITERATIONS * BYTES_PER_VECTOR ∧
  td.output.length = ITERATIONS * BYTES_PER_VECTOR

instance thread_data.sized_decidable (td : thread_data) : Decidable td.sized := by
  unfold thread_data.sized
  infer_instance

/-- Chunk `k` of a block: its 64 bytes from byte offset `64 * k`. -/
def chunk (buf : Buf) (k : Nat) : List Byte := (buf.drop (64 * k)).take 64

/-- The loop shared by the two vector kernels, with the register operation
`op` left open. -/
def vec_loop (op : m512 → m512 → m512 → m512) (i : Nat) (td : thread_data) :
    Option thread_data :=
  if i < ITERATIONS then
    match load td.input_x (64 * i) 64, load td.input_y (64 * i) 64,
        load td.input_z (64 * i) 64 with
    | some vx, some vy, some vz =>
      match store td.output (64 * i) (op vz vx vy) with
      | some out => vec_loop op (i + 1) { td with output := out }
      | none => none
    | _, _, _ => none
  else some td
termination_by ITERATIONS - i

/-- The steps of a run of the worker loop over the samples `ts` when each of
them lets kernel `k` run once: sample, call, sample, call, ... -/
def rounds (k : Kernel) : List Int → List Event
  | [] => []
  | t :: ts => Event.sample t :: Event.invoke k :: rounds k ts

/-- Number of kernel calls in a trace. -/
def invocations : List Event → Nat
  | [] => 0
  | Event.invoke _ :: es => invocations es + 1
  | Event.sample _ :: es => invocations es

/-! ## Concrete inputs -/

/-- The `struct thread_data` as `main` hands it to `init_thread_data`: all
fields zero. -/
def blank_td : thread_data :=
  { input_x := [], input_y := [], input_z := [], input_ones := [], output := [], tid := 0 }

/-- A context with four zero-filled blocks of 16384 bytes. -/
def zeroed_td : thread_data :=
  { input_x := List.replicate 16384 0, input_y := List.replicate 16384 0,
    input_z := List.replicate 16384 0, input_ones := [],
    output := List.replicate 16384 0, tid := 0 }

/-- The context `zeroed_td` with every byte of `output` set to 1. -/
def ones_output_td : thread_data :=
  { zeroed_td with output := List.replicate 16384 1 }

/-- A worker that has not yet taken a step. -/
def start_world (td : thread_data) : World :=
  { td := td, trace := [], stdout := [], tsc_reads := 0 }

/-- An environment: the cycle counter advances by 10 per read, a read past
the end of `instruction_desc` traps. -/
def env_trap : Env :=
  { fma := fun a b c => (a * b + c) % 2 ^ 64, tsc := fun k => 10 * k,
    stray_desc := fun _ => none }

/-- An environment in which a read past the end of `instruction_desc` yields
the string "?". -/
def env_stray : Env :=
  { fma := fun a b c => (a * b + c) % 2 ^ 64, tsc := fun k => 10 * k,
    stray_desc := fun _ => some "?" }

/-- Globals after `-d 0 -t 1 -i 0 -l 3`. -/
def g_zero_duration : Globals :=
  { simd_ins := 0, thread_nr := 1, duration_sec := 0, nop_per_loop := 3 }

/-- Globals after `-d -1 -t 1 -i 3`. -/
def g_bad_selector : Globals :=
  { simd_ins := 3, thread_nr := 1, duration_sec := -1, nop_per_loop := 10000000 }

/-- Globals after `-d 5 -t 1 -i 3`. -/
def g_bad_selector_5s : Globals :=
  { simd_ins := 3, thread_nr := 1, duration_sec := 5, nop_per_loop := 10000000 }

/-- Globals after `-d 2 -t 1 -i 1`. -/
def g_madd : Globals :=
  { simd_ins := 1, thread_nr := 1, duration_sec := 2, nop_per_loop := 10000000 }

/-! ## Bytes and lanes -/

theorem le_encode_length (k v : Nat) : (le_encode k v).length = k := by
  induction k generalizing v with
  | zero => rfl
  | succ k ih => simp [le_encode, ih]

theorem le_decode_encode (k v : Nat) : le_decode (le_encode k v) = v % 256 ^ k := by
  induction k generalizing v with
  | zero => simp [le_encode, le_decode, Nat.mod_one]
  | succ k ih =>
    simp only [le_encode, le_decode, ih]
    rw [pow_succ, Nat.mul_comm (256 ^ k) 256, Nat.mod_mul]

theorem of_lanes_length (qs : List Nat) : (of_lanes qs).length = 8 * qs.length := by
  induction qs with
  | nil => rfl
  | cons q qs ih => simp [of_lanes, le_encode_length, ih]; omega

theorem lane_of_lanes (qs : List Nat) (j : Nat) (q : Nat) (h : qs[j]? = some q) :
    lane (of_lanes qs) j = q % 2 ^ 64 := by
  induction qs generalizing j with
  | nil => simp at h
  | cons a qs ih =>
    cases j with
    | zero =>
      simp at h
      subst h
      simp only [lane, lane_at, of_lanes, Nat.mul_zero, List.drop_zero]
      rw [List.take_append_of_le_length (by simp [le_encode_length])]
      rw [List.take_of_length_le (by simp [le_encode_length])]
      rw [le_decode_encode]
      norm_num
    | succ j =>
      simp at h
      have := ih j h
      simp only [lane, lane_at, of_lanes] at this ⊢
      have e : 8 * (j + 1) = (le_encode 8 a).length + 8 * j := by
        rw [le_encode_length]; omega
      rw [e, List.drop_append]
      exact this

theorem vpmadd52huq_eq (a b c : Nat) :
    vpmadd52huq a b c = (a + (b % 2 ^ 52) * (c % 2 ^ 52) / 2 ^ 52) % 2 ^ 64 := by
  unfold vpmadd52huq
  have hb : b % 2 ^ 52 < 2 ^ 52 := Nat.mod_lt _ (by norm_num)
  have hc : c % 2 ^ 52 < 2 ^ 52 := Nat.mod_lt _ (by norm_num)
  have h : (b % 2 ^ 52) * (c % 2 ^ 52) / 2 ^ 52 < 2 ^ 52 := by
    apply Nat.div_lt_of_lt_mul
    exact Nat.mul_lt_mul_of_lt_of_lt hb hc
  simp only [Nat.mod_eq_of_lt h]

theorem madd_length (a b c : m512) : (mm512_madd52hi_epu64 a b c).length = 64 := by
  simp [mm512_madd52hi_epu64, of_lanes_length]

theorem fmadd_length (fma : Nat → Nat → Nat → Nat) (a b c : m512) :
    (mm512_fmadd_pd fma a b c).length = 64 := by
  simp [mm512_fmadd_pd, of_lanes_length]

theorem lane_madd (a b c : m512) (j : Nat) (hj : j < 8) :
    lane (mm512_madd52hi_epu64 a b c) j =
      (lane a j + (lane b j % 2 ^ 52) * (lane c j % 2 ^ 52) / 2 ^ 52) % 2 ^ 64 := by
  unfold mm512_madd52hi_epu64
  rw [lane_of_lanes _ j (vpmadd52huq (lane a j) (lane b j) (lane c j))]
  · rw [vpmadd52huq_eq, Nat.mod_mod]
  · simp [List.getElem?_map, List.getElem?_range hj]

/-! ## Chunks -/

theorem chunk_length (buf : Buf) (k : Nat) (h : 64 * k + 64 ≤ buf.length) :
    (chunk buf k).length = 64 := by
  simp [chunk]; omega

theorem lane_chunk (buf : Buf) (k j : Nat) (hj : j < 8) :
    lane (chunk buf k) j = lane_at buf (64 * k + 8 * j) := by
  simp only [lane, lane_at, chunk]
  rw [List.drop_take, List.drop_drop, List.take_take]
  congr 2
  omega

theorem load_eq_chunk (buf : Buf) (k : Nat) (h : 64 * k + 64 ≤ buf.length) :
    load buf (64 * k) 64 = some (chunk buf k) := by
  simp [load, chunk, h]

theorem store_eq (buf : Buf) (k : Nat) (v : List Byte) (hv : v.length = 64)
    (h : 64 * k + 64 ≤ buf.length) :
    store buf (64 * k) v = some (buf.take (64 * k) ++ v ++ buf.drop (64 * k + 64)) := by
  simp [store, hv, h]

theorem chunk_store_same (buf : Buf) (k : Nat) (v : List Byte) (hv : v.length = 64)
    (h : 64 * k + 64 ≤ buf.length) :
    chunk (buf.take (64 * k) ++ v ++ buf.drop (64 * k + 64)) k = v := by
  unfold chunk
  have hl : (buf.take (64 * k)).length = 64 * k := by simp; omega
  rw [List.append_assoc]
  conv => lhs; arg 2; arg 1; rw [← hl]
  rw [List.drop_left, List.take_append_of_le_length (by omega)]
  exact List.take_of_length_le (by omega)

theorem chunk_store_below (buf : Buf) (k j : Nat) (v : List Byte) (hjk : j < k)
    (h : 64 * k + 64 ≤ buf.length) :
    chunk (buf.take (64 * k) ++ v ++ buf.drop (64 * k + 64)) j = chunk buf j := by
  unfold chunk
  have hl : (buf.take (64 * k)).length = 64 * k := by simp; omega
  rw [List.append_assoc, List.drop_append_of_le_length (by omega),
    List.take_append_of_le_length (by simp; omega), List.drop_take, List.take_take]
  congr 1
  omega

theorem store_length (buf : Buf) (k : Nat) (v : List Byte) (hv : v.length = 64)
    (h : 64 * k + 64 ≤ buf.length) :
    (buf.take (64 * k) ++ v ++ buf.drop (64 * k + 64)).length = buf.length := by
  simp [hv]; omega

/-- Two blocks of `n` chunks with the same chunks are equal. -/
theorem chunk_ext (n : Nat) (l1 l2 : Buf) (h1 : l1.length = 64 * n) (h2 : l2.length = 64 * n)
    (h : ∀ k, k < n → chunk l1 k = chunk l2 k) : l1 = l2 := by
  induction n generalizing l1 l2 with
  | zero =>
    simp at h1 h2
    rw [h1, h2]
  | succ n ih =>
    have e1 : l1 = l1.take 64 ++ l1.drop 64 := (List.take_append_drop 64 l1).symm
    have e2 : l2 = l2.take 64 ++ l2.drop 64 := (List.take_append_drop 64 l2).symm
    have h0 := h 0 (by omega)
    simp only [chunk, Nat.mul_zero, List.drop_zero] at h0
    have ht : l1.drop 64 = l2.drop 64 := by
      apply ih
      · simp; omega
      · simp; omega
      · intro k hk
        have := h (k + 1) (by omega)
        simp only [chunk] at this ⊢
        rw [List.drop_drop, List.drop_drop]
        have e : 64 + 64 * k = 64 * (k + 1) := by omega
        rw [e]
        exact this
    rw [e1, e2, h0, ht]

/-! ## The vector kernels -/

theorem off_bytes (i : Nat) :
    i * BYTES_PER_VECTOR * sizeof_u_int8_t = 64 * i ∧
    i * BYTES_PER_VECTOR * sizeof_int8_t = 64 * i ∧
    i * DWORD_PER_VECTOR * sizeof_int32_t = 64 * i := by
  simp only [BYTES_PER_VECTOR, DWORD_PER_VECTOR, BITS_PER_VECTOR, sizeof_u_int8_t,
    sizeof_int8_t, sizeof_int32_t]
  omega

theorem madd52hi_epu64_from_eq (i : Nat) (dp : thread_data) :
    madd52hi_epu64_from i dp = vec_loop mm512_madd52hi_epu64 i dp := by
  generalize hn : ITERATIONS - i = n
  induction n generalizing i dp with
  | zero =>
    have hi : ¬ i < ITERATIONS := by omega
    rw [madd52hi_epu64_from, vec_loop]
    simp only [hi, if_false]
  | succ n ih =>
    have hi : i < ITERATIONS := by omega
    rw [madd52hi_epu64_from, vec_loop]
    obtain ⟨e1, e2, e3⟩ := off_bytes i
    simp only [hi, if_true, e1, e2, e3, mm512_loadu_si512, mm512_storeu_si512]
    cases load dp.input_x (64 * i) 64 <;> cases load dp.input_y (64 * i) 64 <;>
      cases load dp.input_z (64 * i) 64 <;> simp only []
    rename_i vx vy vz
    cases store dp.output (64 * i) (mm512_madd52hi_epu64 vz vx vy) with
    | none => rfl
    | some out => exact ih (i + 1) _ (by omega)

theorem fmadd_pd_from_eq (fma : Nat → Nat → Nat → Nat) (i : Nat) (td : thread_data) :
    fmadd_pd_from fma i td = vec_loop (mm512_fmadd_pd fma) i td := by
  generalize hn : ITERATIONS - i = n
  induction n generalizing i td with
  | zero =>
    have hi : ¬ i < ITERATIONS := by omega
    rw [fmadd_pd_from, vec_loop]
    simp only [hi, if_false]
  | succ n ih =>
    have hi : i < ITERATIONS := by omega
    rw [fmadd_pd_from, vec_loop]
    obtain ⟨e1, e2, e3⟩ := off_bytes i
    simp only [hi, if_true, e1, e2, e3, mm512_loadu_pd, mm512_storeu_pd]
    cases load td.input_x (64 * i) 64 <;> cases load td.input_y (64 * i) 64 <;>
      cases load td.input_z (64 * i) 64 <;> simp only []
    rename_i vx vy vz
    cases store td.output (64 * i) (mm512_fmadd_pd fma vz vx vy) with
    | none => rfl
    | some out => exact ih (i + 1) _ (by omega)

/-- Effect of the shared loop from index `i` on blocks of at least 256
chunks: it returns, leaves everything but `output` as it was, writes
`op z x y` into every chunk `k` with `i ≤ k < 256` and keeps the chunks
below `i`. -/
theorem vec_loop_spec (op : m512 → m512 → m512 → m512)
    (hop : ∀ a b c, (op a b c).length = 64) (i : Nat) (td : thread_data)
    (hi : i ≤ 256)
    (hx : 16384 ≤ td.input_x.length) (hy : 16384 ≤ td.input_y.length)
    (hz : 16384 ≤ td.input_z.length) (ho : 16384 ≤ td.output.length) :
    ∃ out, vec_loop op i td = some { td with output := out } ∧
      out.length = td.output.length ∧
      (∀ k, i ≤ k → k < 256 →
        chunk out k = op (chunk td.input_z k) (chunk td.input_x k) (chunk td.input_y k)) ∧
      (∀ k, k < i → chunk out k = chunk td.output k) := by
  generalize hn : 256 - i = n
  induction n generalizing i td with
  | zero =>
    have hi2 : ¬ i < ITERATIONS := by simp only [ITERATIONS]; omega
    refine ⟨td.output, ?_, rfl, ?_, ?_⟩
    · rw [vec_loop]; simp only [hi2, if_false]
    · intro k h1 h2; omega
    · intro k _; rfl
  | succ n ih =>
    have hi2 : i < ITERATIONS := by simp only [ITERATIONS]; omega
    have hv := hop (chunk td.input_z i) (chunk td.input_x i) (chunk td.input_y i)
    have hso : 64 * i + 64 ≤ td.output.length := by omega
    have hlen := store_length td.output i _ hv hso
    obtain ⟨out, h1, h2, h3, h4⟩ := ih (i + 1)
      { td with output := (td.output.take (64 * i) ++
          (op (chunk td.input_z i) (chunk td.input_x i) (chunk td.input_y i)) ++
          td.output.drop (64 * i + 64)) }
      (by omega) hx hy hz (le_of_le_of_eq ho hlen.symm) (by omega)
    refine ⟨out, ?_, ?_, ?_, ?_⟩
    · rw [vec_loop]
      simp only [hi2, if_true, load_eq_chunk _ _ (by omega : 64 * i + 64 ≤ td.input_x.length),
        load_eq_chunk _ _ (by omega : 64 * i + 64 ≤ td.input_y.length),
        load_eq_chunk _ _ (by omega : 64 * i + 64 ≤ td.input_z.length),
        store_eq _ _ _ hv (by omega : 64 * i + 64 ≤ td.output.length)]
      exact h1
    · rw [h2]; exact store_length _ _ _ hv (by omega)
    · intro k hk1 hk2
      rcases Nat.eq_or_lt_of_le hk1 with e | l
      · subst e
        rw [h4 i (by omega)]
        exact chunk_store_same _ _ _ hv (by omega)
      · exact h3 k (by omega) hk2
    · intro k hk
      rw [h4 k (by omega)]
      exact chunk_store_below _ _ _ _ hk (by omega)

theorem sized_lengths (td : thread_data) (h : td.sized) :
    td.input_x.length = 16384 ∧ td.input_y.length = 16384 ∧
    td.input_z.length = 16384 ∧ td.output.length = 16384 := by
  simpa only [thread_data.sized, ITERATIONS, BYTES_PER_VECTOR, BITS_PER_VECTOR] using h

theorem sized_of_lengths (td : thread_data) (hx : td.input_x.length = 16384)
    (hy : td.input_y.length = 16384) (hz : td.input_z.length = 16384)
    (ho : td.output.length = 16384) : td.sized := by
  simpa only [thread_data.sized, ITERATIONS, BYTES_PER_VECTOR, BITS_PER_VECTOR] using
    And.intro hx (And.intro hy (And.intro hz ho))

/-- A vector kernel on a sized context returns; the call changes `output`
only, and every chunk of the new `output` is `op` of the matching chunks. -/
theorem vec_kernel_spec (op : m512 → m512 → m512 → m512)
    (hop : ∀ a b c, (op a b c).length = 64) (td : thread_data) (h : td.sized) :
    ∃ out, vec_loop op 0 td = some { td with output := out } ∧
      out.length = 16384 ∧
      (∀ k, k < 256 →
        chunk out k = op (chunk td.input_z k) (chunk td.input_x k) (chunk td.input_y k)) := by
  obtain ⟨hx, hy, hz, ho⟩ := sized_lengths td h
  obtain ⟨out, h1, h2, h3, _⟩ := vec_loop_spec op hop 0 td (by omega)
    (by omega) (by omega) (by omega) (by omega)
  exact ⟨out, h1, by omega, fun k hk => h3 k (by omega) hk⟩

/-- On a sized context the result of a vector kernel does not depend on the
previous contents of `output`, and running the kernel on its own result
changes nothing. -/
theorem vec_kernel_stable (op : m512 → m512 → m512 → m512)
    (hop : ∀ a b c, (op a b c).length = 64) (td : thread_data) (h : td.sized) :
    ∃ out, vec_loop op 0 td = some { td with output := out } ∧
      out.length = 16384 ∧
      vec_loop op 0 { td with output := out } = some { td with output := out } ∧
      (∀ td2 : thread_data, td2.sized → td2.input_x = td.input_x →
        td2.input_y = td.input_y → td2.input_z = td.input_z →
        vec_loop op 0 td2 = some { td2 with output := out }) := by
  obtain ⟨out, h1, h2, h3⟩ := vec_kernel_spec op hop td h
  obtain ⟨hx, hy, hz, ho⟩ := sized_lengths td h
  have key : ∀ td2 : thread_data, td2.sized → td2.input_x = td.input_x →
      td2.input_y = td.input_y → td2.input_z = td.input_z →
      vec_loop op 0 td2 = some { td2 with output := out } := by
    intro td2 hs ex ey ez
    obtain ⟨out2, g1, g2, g3⟩ := vec_kernel_spec op hop td2 hs
    have : out2 = out := by
      apply chunk_ext 256 _ _ (by omega) (by omega)
      intro k hk
      rw [g3 k hk, h3 k hk, ex, ey, ez]
    rw [g1, this]
  refine ⟨out, h1, h2, ?_, key⟩
  exact key { td with output := out } (sized_of_lengths _ hx hy hz h2) rfl rfl rfl

/-! ## The spin kernel -/

theorem nop_loop_from_spec (n i : Int) (e b : Nat) (hn : n < INT_MAX) (h0 : 0 ≤ i)
    (hi : i ≤ max n 0) :
    nop_loop_from n i e b =
      some { i := max n 0 + 1, evals := e + (max n 0 - i).toNat + 1,
             bodies := b + (max n 0 - i).toNat } := by
  generalize hm : (max n 0 - i).toNat = m
  have hmax : max n 0 < INT_MAX := by
    simp only [INT_MAX] at hn ⊢
    omega
  induction m generalizing i e b with
  | zero =>
    have hi2 : i = max n 0 := by omega
    have hlt : ¬ i < n := by omega
    have hov : i + 1 ≤ INT_MAX := by omega
    rw [nop_loop_from, if_pos hov, if_neg hlt, hi2]
    rfl
  | succ m ih =>
    have hlt : i < n := by omega
    have hov : i + 1 ≤ INT_MAX := by omega
    rw [nop_loop_from, if_pos hov, if_pos hlt]
    rw [ih (i + 1) (e + 1) (b + 1) (by omega) (by omega) (by omega)]
    congr 2 <;> omega

theorem nop_loop_spec (n : Int) (hn : n < INT_MAX) :
    nop_loop n =
      some { i := max n 0 + 1, evals := (max n 0).toNat + 1, bodies := (max n 0).toNat } := by
  unfold nop_loop
  rw [nop_loop_from_spec n 0 0 0 hn (le_refl 0) (le_max_right n 0)]
  simp

/-! ## Dispatch -/

theorem run_simd_spin (env : Env) (g : Globals) (w : World) (hn : g.nop_per_loop < INT_MAX) :
    run_simd env g 0 w =
      .ret () { w with trace := w.trace ++ [Event.invoke Kernel.nop_loop] } := by
  simp [run_simd, call_kernel, nop_loop_spec _ hn]

theorem run_simd_madd (env : Env) (g : Globals) (w : World) (h : w.td.sized) :
    ∃ out, out.length = 16384 ∧
      madd52hi_epu64 w.td = some { w.td with output := out } ∧
      run_simd env g 1 w =
        .ret () { w with td := { w.td with output := out },
                         trace := w.trace ++ [Event.invoke Kernel.madd52hi_epu64] } := by
  obtain ⟨out, h1, h2, _⟩ := vec_kernel_spec _ madd_length w.td h
  refine ⟨out, h2, ?_, ?_⟩
  · simp [madd52hi_epu64, madd52hi_epu64_from_eq, h1]
  · simp [run_simd, call_kernel, madd52hi_epu64, madd52hi_epu64_from_eq, h1]

theorem run_simd_fmadd (env : Env) (g : Globals) (w : World) (h : w.td.sized) :
    ∃ out, out.length = 16384 ∧
      fmadd_pd env.fma w.td = some { w.td with output := out } ∧
      run_simd env g 2 w =
        .ret () { w with td := { w.td with output := out },
                         trace := w.trace ++ [Event.invoke Kernel.fmadd_pd] } := by
  obtain ⟨out, h1, h2, _⟩ := vec_kernel_spec _ (fmadd_length env.fma) w.td h
  refine ⟨out, h2, ?_, ?_⟩
  · simp [fmadd_pd, fmadd_pd_from_eq, h1]
  · simp [run_simd, call_kernel, fmadd_pd, fmadd_pd_from_eq, h1]

theorem call_kernel_trace (k : Kernel) (body : thread_data → Option thread_data) (w : World) :
    (call_kernel k body w).world.trace = w.trace ++ [Event.invoke k] := by
  simp only [call_kernel]
  cases h : body w.td <;> rfl

theorem call_kernel_ne_exit (k : Kernel) (body : thread_data → Option thread_data)
    (w w1 : World) (s : Int) : call_kernel k body w ≠ .exit s w1 := by
  simp only [call_kernel]
  cases h : body w.td <;> simp

theorem zeroed_td_sized : zeroed_td.sized := by
  refine sized_of_lengths _ ?_ ?_ ?_ ?_ <;> simp only [zeroed_td, List.length_replicate]

theorem ones_output_td_sized : ones_output_td.sized := by
  refine sized_of_lengths _ ?_ ?_ ?_ ?_ <;>
    simp only [ones_output_td, zeroed_td, List.length_replicate]

theorem chunk_zero (k : Nat) (hk : k < 256) :
    chunk (List.replicate 16384 (0 : Byte)) k = List.replicate 64 0 := by
  simp only [chunk, List.drop_replicate, List.take_replicate]
  congr 1
  omega

theorem madd_zero :
    mm512_madd52hi_epu64 (List.replicate 64 0) (List.replicate 64 0) (List.replicate 64 0) =
      List.replicate 64 0 := by
  decide

/-- The integer kernel maps a context of four zero-filled blocks to itself. -/
theorem madd52hi_epu64_zero (td : thread_data) (hx : td.input_x = List.replicate 16384 0)
    (hy : td.input_y = List.replicate 16384 0) (hz : td.input_z = List.replicate 16384 0)
    (ho : td.output = List.replicate 16384 0) : madd52hi_epu64 td = some td := by
  have hs : td.sized := sized_of_lengths td (by rw [hx, List.length_replicate])
    (by rw [hy, List.length_replicate]) (by rw [hz, List.length_replicate])
    (by rw [ho, List.length_replicate])
  obtain ⟨out, h1, h2, h3⟩ := vec_kernel_spec _ madd_length td hs
  have e : out = td.output := by
    rw [ho]
    apply chunk_ext 256 _ _ (by omega) (by rw [List.length_replicate])
    intro k hk
    rw [h3 k hk, hx, hy, hz, chunk_zero k hk, madd_zero]
  rw [madd52hi_epu64, madd52hi_epu64_from_eq, h1, e]

/-! ## The claims on kernels, dispatch and buffers -/

/-- C1: `run_simd` calls the spin kernel exactly when the selector is 0, the
integer fused-multiply kernel exactly when it is 1, the floating-point kernel
exactly when it is 2, and for any other selector it ends in `exit(1)` with
the worker state untouched: no kernel call recorded, no block modified. -/
theorem run_simd_dispatch (env : Env) (g : Globals) (type : Int) (w : World) :
    ((run_simd env g type w).world.trace = w.trace ++ [Event.invoke Kernel.nop_loop]
        ↔ type = 0) ∧
    ((run_simd env g type w).world.trace = w.trace ++ [Event.invoke Kernel.madd52hi_epu64]
        ↔ type = 1) ∧
    ((run_simd env g type w).world.trace = w.trace ++ [Event.invoke Kernel.fmadd_pd]
        ↔ type = 2) ∧
    (run_simd env g type w = .exit 1 w ↔ (type ≠ 0 ∧ type ≠ 1 ∧ type ≠ 2)) ∧
    (run_simd env g 0 w =
        call_kernel Kernel.nop_loop (fun td => (nop_loop g.nop_per_loop).map fun _ => td) w) ∧
    (run_simd env g 1 w = call_kernel Kernel.madd52hi_epu64 madd52hi_epu64 w) ∧
    (run_simd env g 2 w = call_kernel Kernel.fmadd_pd (fmadd_pd env.fma) w) := by
  refine ⟨?_, ?_, ?_, ?_, rfl, rfl, rfl⟩
  all_goals
    by_cases h0 : type = 0
    · subst h0
      simp [run_simd, call_kernel_trace, call_kernel_ne_exit]
    · by_cases h1 : type = 1
      · subst h1
        simp [run_simd, call_kernel_trace, call_kernel_ne_exit]
      · by_cases h2 : type = 2
        · subst h2
          simp [run_simd, call_kernel_trace, call_kernel_ne_exit]
        · simp [run_simd, h0, h1, h2, Outcome.world]

/-- C2: on a context whose blocks hold 16384 bytes each, one call of
`madd52hi_epu64` returns, changes `output` only, and for every chunk
`i < 256` and lane `j < 8` the 64-bit little-endian lane of the new `output`
at byte offset `i * 64 + j * 8` is
`(z + (x mod 2^52) * (y mod 2^52) / 2^52) mod 2^64` for the lanes `x`, `y`,
`z` of `input_x`, `input_y`, `input_z` at the same offset.  Chunk `i` of the
new `output` is the register operation applied to chunk `i` of the three
inputs, for each of the 256 chunks. -/
theorem madd52hi_epu64_reference (dp : thread_data) (h : dp.sized) :
    ∃ out, madd52hi_epu64 dp = some { dp with output := out } ∧
      out.length = 16384 ∧
      (∀ i j, i < 256 → j < 8 →
        lane_at out (i * 64 + j * 8) =
          (lane_at dp.input_z (i * 64 + j * 8) +
            (lane_at dp.input_x (i * 64 + j * 8) % 2 ^ 52) *
              (lane_at dp.input_y (i * 64 + j * 8) % 2 ^ 52) / 2 ^ 52) % 2 ^ 64) ∧
      (∀ i, i < 256 →
        chunk out i =
          mm512_madd52hi_epu64 (chunk dp.input_z i) (chunk dp.input_x i)
            (chunk dp.input_y i)) := by
  obtain ⟨out, h1, h2, h3⟩ := vec_kernel_spec _ madd_length dp h
  refine ⟨out, ?_, h2, ?_, h3⟩
  · rw [madd52hi_epu64, madd52hi_epu64_from_eq, h1]
  · intro i j hi hj
    have e : i * 64 + j * 8 = 64 * i + 8 * j := by omega
    rw [e, ← lane_chunk out i j hj, h3 i hi, lane_madd _ _ _ j hj,
      lane_chunk _ i j hj, lane_chunk _ i j hj, lane_chunk _ i j hj]

theorem madd52hi_epu64_reference_witness :
    zeroed_td.sized ∧
    ∃ out, madd52hi_epu64 zeroed_td = some { zeroed_td with output := out } ∧
      out.length = 16384 ∧
      (∀ i j, i < 256 → j < 8 →
        lane_at out (i * 64 + j * 8) =
          (lane_at zeroed_td.input_z (i * 64 + j * 8) +
            (lane_at zeroed_td.input_x (i * 64 + j * 8) % 2 ^ 52) *
              (lane_at zeroed_td.input_y (i * 64 + j * 8) % 2 ^ 52) / 2 ^ 52) % 2 ^ 64) ∧
      (∀ i, i < 256 →
        chunk out i =
          mm512_madd52hi_epu64 (chunk zeroed_td.input_z i) (chunk zeroed_td.input_x i)
            (chunk zeroed_td.input_y i)) :=
  ⟨zeroed_td_sized, madd52hi_epu64_reference zeroed_td zeroed_td_sized⟩

theorem init_thread_data_ok (td0 : thread_data) :
    init_thread_data true true true true td0 =
      .ok ({ td0 with input_x := List.replicate 16384 0, input_y := List.replicate 16384 0,
                      input_z := List.replicate 16384 0, output := List.replicate 16384 0 }, 0) := by
  rfl

theorem run_simd_times_madd_zero (env : Env) (g : Globals) (n : Nat) (w : World)
    (hx : w.td.input_x = List.replicate 16384 0) (hy : w.td.input_y = List.replicate 16384 0)
    (hz : w.td.input_z = List.replicate 16384 0) (ho : w.td.output = List.replicate 16384 0) :
    run_simd_times env g 1 n w =
      .ret () { w with trace := w.trace ++ List.replicate n (Event.invoke Kernel.madd52hi_epu64) } := by
  induction n generalizing w with
  | zero => simp [run_simd_times]
  | succ n ih =>
    have hk := madd52hi_epu64_zero w.td hx hy hz ho
    have hr : run_simd env g 1 w =
        .ret () { w with trace := w.trace ++ [Event.invoke Kernel.madd52hi_epu64] } := by
      simp [run_simd, call_kernel, hk]
    rw [run_simd_times, hr]
    simp only []
    rw [ih { w with trace := w.trace ++ [Event.invoke Kernel.madd52hi_epu64] } hx hy hz ho]
    simp [List.replicate_succ]

/-- C3: `init_thread_data` (all four allocations succeeding) yields a
context whose four blocks are 16384 zero bytes, and after any number `n` of
consecutive calls of the integer fused-multiply kernel through `run_simd`
with selector 1 the context is still that one: every byte of `output` and of
the three inputs is 0. -/
theorem madd_keeps_fresh_buffers_zero (env : Env) (g : Globals) (td0 : thread_data)
    (w : World) (n : Nat) :
    ∃ td, init_thread_data true true true true td0 = .ok (td, 0) ∧
      td.input_x = List.replicate 16384 0 ∧ td.input_y = List.replicate 16384 0 ∧
      td.input_z = List.replicate 16384 0 ∧ td.output = List.replicate 16384 0 ∧
      run_simd_times env g 1 n { w with td := td } =
        .ret () { w with td := td,
                         trace := w.trace ++
                           List.replicate n (Event.invoke Kernel.madd52hi_epu64) } := by
  refine ⟨_, init_thread_data_ok td0, rfl, rfl, rfl, rfl, ?_⟩
  exact run_simd_times_madd_zero env g n _ rfl rfl rfl rfl

/-- C4, as stated, fails for the spin kernel: two sized contexts with the
same three inputs and different `output` contents are both left as they are
by a call with selector 0, so the `output` after the call is not a function
of the inputs alone. -/
theorem spin_output_depends_on_previous_output :
    zeroed_td.sized ∧ ones_output_td.sized ∧
    zeroed_td.input_x = ones_output_td.input_x ∧
    zeroed_td.input_y = ones_output_td.input_y ∧
    zeroed_td.input_z = ones_output_td.input_z ∧
    (run_simd env_trap g_zero_duration 0 (start_world zeroed_td)).world.td.output =
      List.replicate 16384 0 ∧
    (run_simd env_trap g_zero_duration 0 (start_world ones_output_td)).world.td.output =
      List.replicate 16384 1 ∧
    List.replicate 16384 (0 : Byte) ≠ List.replicate 16384 1 := by
  refine ⟨zeroed_td_sized, ones_output_td_sized, rfl, rfl, rfl, ?_, ?_, ?_⟩
  · rw [run_simd_spin _ _ _ (by decide)]; rfl
  · rw [run_simd_spin _ _ _ (by decide)]; rfl
  · intro h
    have := congrArg List.head? h
    simp [List.head?_replicate] at this

/-- C4, amended: for selector 0 (with `nop_per_loop < INT_MAX`) and
selector 1, on a sized context, a kernel call returns and leaves the three
inputs unchanged, and a second call in a row returns the context the first
call returned.  For selector 0 the call leaves the whole context, `output`
included, as it was.  For selector 1 the `output` after the call is the same
for every sized context with the same three inputs, whatever its previous
`output`, the other globals and the environment. -/
theorem kernel_call_idempotent (env : Env) (g : Globals) (type : Int) (w : World)
    (ht : type = 0 ∨ type = 1) (hs : w.td.sized) (hn : g.nop_per_loop < INT_MAX) :
    ∃ w1, run_simd env g type w = .ret () w1 ∧
      w1.td.input_x = w.td.input_x ∧ w1.td.input_y = w.td.input_y ∧
      w1.td.input_z = w.td.input_z ∧
      (∃ w2, run_simd env g type w1 = .ret () w2 ∧ w2.td = w1.td) ∧
      (type = 0 → w1.td = w.td) ∧
      (type = 1 → ∀ (env2 : Env) (g2 : Globals) (v : World), v.td.sized →
        v.td.input_x = w.td.input_x → v.td.input_y = w.td.input_y →
        v.td.input_z = w.td.input_z →
        ∃ v1, run_simd env2 g2 1 v = .ret () v1 ∧ v1.td.output = w1.td.output) := by
  rcases ht with rfl | rfl
  · refine ⟨_, run_simd_spin env g w hn, rfl, rfl, rfl, ⟨_, run_simd_spin env g _ hn, rfl⟩,
      fun _ => rfl, fun h => absurd h (by decide)⟩
  · obtain ⟨out, h1, h2, h3, h4⟩ := vec_kernel_stable _ madd_length w.td hs
    have run : ∀ (env2 : Env) (g2 : Globals) (v : World), v.td.sized →
        v.td.input_x = w.td.input_x → v.td.input_y = w.td.input_y →
        v.td.input_z = w.td.input_z →
        run_simd env2 g2 1 v =
          .ret () { v with td := { v.td with output := out },
                           trace := v.trace ++ [Event.invoke Kernel.madd52hi_epu64] } := by
      intro env2 g2 v hv ex ey ez
      have := h4 v.td hv ex ey ez
      simp [run_simd, call_kernel, madd52hi_epu64, madd52hi_epu64_from_eq, this]
    obtain ⟨hx, hy, hz, _⟩ := sized_lengths w.td hs
    refine ⟨_, run env g w hs rfl rfl rfl, rfl, rfl, rfl, ?_, fun h => absurd h (by decide), ?_⟩
    · refine ⟨_, run env g _ (sized_of_lengths _ hx hy hz h2) rfl rfl rfl, rfl⟩
    · intro _ env2 g2 v hv ex ey ez
      exact ⟨_, run env2 g2 v hv ex ey ez, rfl⟩

theorem kernel_call_idempotent_witness :
    ((1 : Int) = 0 ∨ (1 : Int) = 1) ∧ (start_world zeroed_td).td.sized ∧
    g_madd.nop_per_loop < INT_MAX ∧
    ∃ w1, run_simd env_trap g_madd 1 (start_world zeroed_td) = .ret () w1 ∧
      w1.td.input_x = zeroed_td.input_x ∧
      (∃ w2, run_simd env_trap g_madd 1 w1 = .ret () w2 ∧ w2.td = w1.td) := by
  refine ⟨Or.inr rfl, zeroed_td_sized, by decide, ?_⟩
  obtain ⟨w1, h1, h2, _, _, h5, _⟩ :=
    kernel_call_idempotent env_trap g_madd 1 (start_world zeroed_td) (Or.inr rfl)
      zeroed_td_sized (by decide)
  exact ⟨w1, h1, h2, h5⟩

/-- C5: `init_thread_data` (all four allocations succeeding) gives each of
`input_x`, `input_y`, `input_z`, `output` exactly
`ITERATIONS * BYTES_PER_VECTOR = 256 * 64 = 16384` bytes (`input_z` and
`output` as `256 * 16` elements of 4 bytes).  On every context with blocks
of that size, at every iteration `i < 256` of either vector kernel the three
64-byte loads and the 64-byte store are at byte offset `64 * i`, the range
`[64 * i, 64 * i + 64)` lies inside the 16384 bytes, the bounds-checked
accesses succeed, and a call of `madd52hi_epu64` and of `fmadd_pd` returns
without a failed access. -/
theorem buffers_sized_and_in_bounds (fma : Nat → Nat → Nat → Nat) (td0 td : thread_data)
    (h : td.sized) :
    (∃ t, init_thread_data true true true true td0 = .ok (t, 0) ∧ t.sized ∧
      t.input_x.length = 16384 ∧ t.input_y.length = 16384 ∧
      t.input_z.length = 16384 ∧ t.output.length = 16384) ∧
    ITERATIONS * BYTES_PER_VECTOR = 16384 ∧
    ITERATIONS * DWORD_PER_VECTOR * sizeof_int32_t = 16384 ∧
    ITERATIONS = 256 ∧ BYTES_PER_VECTOR = 64 ∧ DWORD_PER_VECTOR = 16 ∧
    (∀ i, i < ITERATIONS →
      i * BYTES_PER_VECTOR * sizeof_u_int8_t = 64 * i ∧
      i * BYTES_PER_VECTOR * sizeof_int8_t = 64 * i ∧
      i * DWORD_PER_VECTOR * sizeof_int32_t = 64 * i ∧
      64 * i + 64 ≤ 16384 ∧
      (mm512_loadu_si512 td.input_x (i * BYTES_PER_VECTOR * sizeof_u_int8_t)).isSome ∧
      (mm512_loadu_si512 td.input_y (i * BYTES_PER_VECTOR * sizeof_int8_t)).isSome ∧
      (mm512_loadu_si512 td.input_z (i * DWORD_PER_VECTOR * sizeof_int32_t)).isSome ∧
      (mm512_loadu_pd td.input_x (i * BYTES_PER_VECTOR * sizeof_u_int8_t)).isSome ∧
      (mm512_loadu_pd td.input_y (i * BYTES_PER_VECTOR * sizeof_int8_t)).isSome ∧
      (mm512_loadu_pd td.input_z (i * DWORD_PER_VECTOR * sizeof_int32_t)).isSome ∧
      (∀ a b c, (mm512_storeu_si512 td.output (i * DWORD_PER_VECTOR * sizeof_int32_t)
        (mm512_madd52hi_epu64 a b c)).isSome) ∧
      (∀ a b c, (mm512_storeu_pd td.output (i * DWORD_PER_VECTOR * sizeof_int32_t)
        (mm512_fmadd_pd fma a b c)).isSome)) ∧
    (madd52hi_epu64 td).isSome ∧ (fmadd_pd fma td).isSome := by
  obtain ⟨hx, hy, hz, ho⟩ := sized_lengths td h
  refine ⟨⟨_, init_thread_data_ok td0, ?_, ?_⟩, by decide, by decide, rfl, by decide,
    by decide, ?_, ?_, ?_⟩
  · refine sized_of_lengths _ ?_ ?_ ?_ ?_ <;> simp only [List.length_replicate]
  · refine ⟨?_, ?_, ?_, ?_⟩ <;> simp only [List.length_replicate]
  · intro i hi
    simp only [ITERATIONS] at hi
    obtain ⟨e1, e2, e3⟩ := off_bytes i
    refine ⟨e1, e2, e3, by omega, ?_, ?_, ?_, ?_, ?_, ?_, ?_, ?_⟩
    · rw [e1, mm512_loadu_si512, load_eq_chunk _ _ (by omega)]; rfl
    · rw [e2, mm512_loadu_si512, load_eq_chunk _ _ (by omega)]; rfl
    · rw [e3, mm512_loadu_si512, load_eq_chunk _ _ (by omega)]; rfl
    · rw [e1, mm512_loadu_pd, load_eq_chunk _ _ (by omega)]; rfl
    · rw [e2, mm512_loadu_pd, load_eq_chunk _ _ (by omega)]; rfl
    · rw [e3, mm512_loadu_pd, load_eq_chunk _ _ (by omega)]; rfl
    · intro a b c
      rw [e3, mm512_storeu_si512, store_eq _ _ _ (madd_length a b c) (by omega)]; rfl
    · intro a b c
      rw [e3, mm512_storeu_pd, store_eq _ _ _ (fmadd_length fma a b c) (by omega)]; rfl
  · obtain ⟨out, h1, _⟩ := vec_kernel_spec _ madd_length td h
    rw [madd52hi_epu64, madd52hi_epu64_from_eq, h1]; rfl
  · obtain ⟨out, h1, _⟩ := vec_kernel_spec _ (fmadd_length fma) td h
    rw [fmadd_pd, fmadd_pd_from_eq, h1]; rfl

theorem buffers_sized_and_in_bounds_witness :
    zeroed_td.sized ∧
    (madd52hi_epu64 zeroed_td).isSome ∧ (fmadd_pd env_trap.fma zeroed_td).isSome :=
  ⟨zeroed_td_sized,
    (buffers_sized_and_in_bounds env_trap.fma blank_td zeroed_td zeroed_td_sized).2.2.2.2.2.2.2⟩

/-- C9: for every value `n < INT_MAX` of `nop_per_loop` the loop
`while (i++ < nop_per_loop)` ends after `max(n, 0) + 1` evaluations of its
condition and `max(n, 0)` runs of its empty body, the counter ends at
`max(n, 0) + 1 ≤ INT_MAX` (no signed overflow), and a call of `run_simd`
with selector 0 returns with the context, all four blocks included,
unchanged. -/
theorem nop_loop_terminates (env : Env) (g : Globals) (w : World)
    (h : g.nop_per_loop < INT_MAX) :
    nop_loop g.nop_per_loop =
      some { i := max g.nop_per_loop 0 + 1, evals := (max g.nop_per_loop 0).toNat + 1,
             bodies := (max g.nop_per_loop 0).toNat } ∧
    max g.nop_per_loop 0 + 1 ≤ INT_MAX ∧
    ∃ w1, run_simd env g 0 w = .ret () w1 ∧ w1.td = w.td ∧
      w1.trace = w.trace ++ [Event.invoke Kernel.nop_loop] := by
  refine ⟨nop_loop_spec _ h, ?_, _, run_simd_spin env g w h, rfl, rfl⟩
  simp only [INT_MAX] at h ⊢
  omega

theorem nop_loop_terminates_witness :
    g_zero_duration.nop_per_loop < INT_MAX ∧
    nop_loop g_zero_duration.nop_per_loop =
      some { i := max g_zero_duration.nop_per_loop 0 + 1,
             evals := (max g_zero_duration.nop_per_loop 0).toNat + 1,
             bodies := (max g_zero_duration.nop_per_loop 0).toNat } :=
  ⟨by decide,
    (nop_loop_terminates env_trap g_zero_duration (start_world zeroed_td) (by decide)).1⟩

/-! ## The worker loop -/

theorem invocations_append (a b : List Event) :
    invocations (a ++ b) = invocations a + invocations b := by
  induction a with
  | nil => simp [invocations]
  | cons e a ih =>
    cases e with
    | sample t => simp [invocations, ih]
    | invoke k => simp [invocations, ih]; omega

theorem invocations_rounds (k : Kernel) (ts : List Int) :
    invocations (rounds k ts) = ts.length := by
  induction ts with
  | nil => rfl
  | cons t ts ih => simp [rounds, invocations, ih]

/-- A valid selector on a sized context: the call returns, records the call
of the selected kernel and keeps the context sized. -/
theorem run_simd_valid (env : Env) (g : Globals) (k : Kernel) (w : World)
    (hk : kernel_of g.simd_ins = some k) (hn : g.nop_per_loop < INT_MAX) (hs : w.td.sized) :
    ∃ td, td.sized ∧
      run_simd env g g.simd_ins w =
        .ret () { w with td := td, trace := w.trace ++ [Event.invoke k] } := by
  unfold kernel_of at hk
  by_cases h0 : g.simd_ins = 0
  · simp [h0] at hk
    subst hk
    exact ⟨w.td, hs, by rw [h0]; exact run_simd_spin env g w hn⟩
  · by_cases h1 : g.simd_ins = 1
    · simp [h1] at hk
      subst hk
      obtain ⟨hx, hy, hz, _⟩ := sized_lengths w.td hs
      obtain ⟨out, e1, _, e3⟩ := run_simd_madd env g w hs
      exact ⟨{ w.td with output := out }, sized_of_lengths _ hx hy hz e1, by rw [h1]; exact e3⟩
    · by_cases h2 : g.simd_ins = 2
      · simp [h2] at hk
        subst hk
        obtain ⟨hx, hy, hz, _⟩ := sized_lengths w.td hs
        obtain ⟨out, e1, _, e3⟩ := run_simd_fmadd env g w hs
        exact ⟨{ w.td with output := out }, sized_of_lengths _ hx hy hz e1,
          by rw [h2]; exact e3⟩
      · simp [h0, h1, h2] at hk

theorem deadline_eq (start d D : Int) (h : deadline start d = some D) : D = start + 1 + d := by
  unfold deadline add_i64 at h
  split at h
  · simp at h
  · rename_i s hs
    split at hs
    · simp at hs
      subst hs
      split at h
      · simp at h
        exact h.symm
      · simp at h
    · simp at hs

/-- One round of the loop: a sample below the deadline lets the selected
kernel run once and the counter go up by one. -/
theorem worker_loop_round (env : Env) (g : Globals) (start D : Int) (k : Kernel)
    (hk : kernel_of g.simd_ins = some k) (hn : g.nop_per_loop < INT_MAX)
    (hD : deadline start g.duration_sec = some D)
    (t : Int) (clock : List Int) (l : Locals) (w : World) (hs : w.td.sized) (ht : t < D) :
    ∃ l1 w1, worker_loop env g start (t :: clock) l w = worker_loop env g start clock l1 w1 ∧
      l1.loops = (l.loops + 1) % ULONG_MOD ∧
      w1.trace = w.trace ++ [Event.sample t, Event.invoke k] ∧
      w1.stdout = w.stdout ∧ w1.td.sized := by
  obtain ⟨td, hsz, hr⟩ := run_simd_valid env g k
    (rdtsc env { w with trace := w.trace ++ [Event.sample t] }).2 hk hn hs
  have step : worker_loop env g start (t :: clock) l w =
      worker_loop env g start clock
        { total := (l.total + (env.tsc (w.tsc_reads + 1) % ULONG_MOD + ULONG_MOD -
            env.tsc w.tsc_reads % ULONG_MOD) % ULONG_MOD) % ULONG_MOD,
          loops := (l.loops + 1) % ULONG_MOD }
        { td := td, trace := w.trace ++ [Event.sample t] ++ [Event.invoke k],
          stdout := w.stdout, tsc_reads := w.tsc_reads + 2 } := by
    simp only [worker_loop, hD, ht, if_true, hr]
    rfl
  exact ⟨_, _, step, rfl, by simp, rfl, hsz⟩

/-- While the samples stay below the deadline the loop goes round once per
sample: sample, kernel call, counter increment. -/
theorem worker_loop_rounds (env : Env) (g : Globals) (start D : Int) (k : Kernel)
    (hk : kernel_of g.simd_ins = some k) (hn : g.nop_per_loop < INT_MAX)
    (hD : deadline start g.duration_sec = some D)
    (pre rest : List Int) (l : Locals) (w : World) (hs : w.td.sized)
    (hl : l.loops < ULONG_MOD) (hpre : ∀ x ∈ pre, x < D) :
    ∃ l1 w1, worker_loop env g start (pre ++ rest) l w = worker_loop env g start rest l1 w1 ∧
      l1.loops = (l.loops + pre.length) % ULONG_MOD ∧
      w1.trace = w.trace ++ rounds k pre ∧ w1.stdout = w.stdout ∧ w1.td.sized := by
  induction pre generalizing l w with
  | nil =>
    refine ⟨l, w, rfl, ?_, by simp [rounds], rfl, hs⟩
    simp [Nat.mod_eq_of_lt hl]
  | cons t pre ih =>
    have ht : t < D := hpre t (List.mem_cons_self _ _)
    obtain ⟨l0, w0, d1, d2, d3, d4, d5⟩ :=
      worker_loop_round env g start D k hk hn hD t (pre ++ rest) l w hs ht
    obtain ⟨l1, w1, e1, e2, e3, e4, e5⟩ := ih l0 w0 d5
      (by rw [d2]; exact Nat.mod_lt _ (by decide))
      (fun x hx => hpre x (List.mem_cons_of_mem _ hx))
    refine ⟨l1, w1, ?_, ?_, ?_, ?_, e5⟩
    · rw [List.cons_append, d1, e1]
    · rw [e2, d2]
      simp only [List.length_cons, ULONG_MOD]
      omega
    · rw [e3, d3]
      simp [rounds]
    · rw [e4, d4]

theorem worker_loop_stop (env : Env) (g : Globals) (start D t : Int) (rest : List Int)
    (l : Locals) (w : World) (hD : deadline start g.duration_sec = some D) (ht : ¬ t < D) :
    worker_loop env g start (t :: rest) l w =
      .ret l { w with trace := w.trace ++ [Event.sample t] } := by
  simp only [worker_loop, hD, ht, if_false]

/-! ## The claims on the worker -/

/-- C10: let `D = start + duration_sec + 1`, let the samples read at the
loop condition be `pre ++ t :: rest` with every sample of `pre` below `D`
and `t` the first one not below `D`, and let the selector be valid and the
context sized.  Then the loop returns; its steps are: for each sample of
`pre`, in order, that sample followed by one call of the selected kernel,
then the sample `t` and nothing more (`rest` is never read, no kernel runs
after `t`); the number of kernel calls is the length of `pre`, and the final
loop counter is that number (as an `unsigned long`).  While no sample has
reached `D` (the samples are `pre` alone) the loop has not returned and has
called the kernel after each sample. -/
theorem worker_loop_steps (env : Env) (g : Globals) (start D t : Int) (k : Kernel)
    (pre rest : List Int) (w : World)
    (hk : kernel_of g.simd_ins = some k) (hn : g.nop_per_loop < INT_MAX)
    (hs : w.td.sized) (hD : deadline start g.duration_sec = some D)
    (hpre : ∀ x ∈ pre, x < D) (ht : ¬ t < D) :
    D = start + g.duration_sec + 1 ∧
    (∃ l1 w1,
      worker_loop env g start (pre ++ t :: rest) { total := 0, loops := 0 } w = .ret l1 w1 ∧
      w1.trace = w.trace ++ rounds k pre ++ [Event.sample t] ∧
      invocations w1.trace = invocations w.trace + pre.length ∧
      l1.loops = pre.length % 2 ^ 64 ∧
      (pre.length < 2 ^ 64 → l1.loops = pre.length)) ∧
    (∃ w2, worker_loop env g start pre { total := 0, loops := 0 } w = .starved w2 ∧
      w2.trace = w.trace ++ rounds k pre) := by
  refine ⟨by rw [deadline_eq _ _ _ hD]; ring, ?_, ?_⟩
  · obtain ⟨l1, w1, e1, e2, e3, _, _⟩ :=
      worker_loop_rounds env g start D k hk hn hD pre (t :: rest) { total := 0, loops := 0 } w hs
        (by decide) hpre
    have hl : l1.loops = pre.length % 2 ^ 64 := by
      rw [e2]
      simp [ULONG_MOD]
    refine ⟨l1, { w1 with trace := w1.trace ++ [Event.sample t] }, ?_, ?_, ?_, hl, ?_⟩
    · rw [e1, worker_loop_stop env g start D t rest l1 w1 hD ht]
    · simp [e3]
    · simp [e3, invocations_append, invocations_rounds, invocations]
    · intro h
      rw [hl, Nat.mod_eq_of_lt h]
  · obtain ⟨l1, w1, e1, _, e3, _, _⟩ :=
      worker_loop_rounds env g start D k hk hn hD pre [] { total := 0, loops := 0 } w hs
        (by decide) hpre
    rw [List.append_nil] at e1
    exact ⟨w1, by rw [e1]; rfl, e3⟩

theorem worker_loop_steps_witness :
    kernel_of g_madd.simd_ins = some Kernel.madd52hi_epu64 ∧
    g_madd.nop_per_loop < INT_MAX ∧ (start_world zeroed_td).td.sized ∧
    deadline 100 g_madd.duration_sec = some 103 ∧
    (∀ x ∈ [100, 101, 102], x < (103 : Int)) ∧ ¬ (103 : Int) < 103 ∧
    ∃ l1 w1,
      worker_loop env_trap g_madd 100 ([100, 101, 102] ++ 103 :: [104])
        { total := 0, loops := 0 } (start_world zeroed_td) = .ret l1 w1 ∧
      w1.trace = (start_world zeroed_td).trace ++
        rounds Kernel.madd52hi_epu64 [100, 101, 102] ++ [Event.sample 103] ∧
      l1.loops = 3 := by
  have hk : kernel_of g_madd.simd_ins = some Kernel.madd52hi_epu64 := by decide
  have hD : deadline 100 g_madd.duration_sec = some 103 := by decide
  have hpre : ∀ x ∈ [100, 101, 102], x < (103 : Int) := by decide
  refine ⟨hk, by decide, zeroed_td_sized, hD, hpre, by decide, ?_⟩
  obtain ⟨_, ⟨l1, w1, h1, h2, _, _, h5⟩, _⟩ :=
    worker_loop_steps env_trap g_madd 100 103 103 Kernel.madd52hi_epu64 [100, 101, 102] [104]
      (start_world zeroed_td) hk (by decide) zeroed_td_sized hD hpre (by decide)
  exact ⟨l1, w1, h1, h2, h5 (by decide)⟩

/-- C7, as stated, fails at `duration_sec = 0`: with the clock still at
`start` at the first evaluation of the loop condition, the condition
`time < start + 1 + 0` holds and the kernel runs once before the next sample
ends the loop. -/
theorem zero_duration_runs_kernel :
    g_zero_duration.duration_sec ≤ 0 ∧
    worker_loop env_trap g_zero_duration 100 [100, 101] { total := 0, loops := 0 }
        (start_world zeroed_td) =
      .ret { total := 10, loops := 1 }
        { td := zeroed_td,
          trace := [Event.sample 100, Event.invoke Kernel.nop_loop, Event.sample 101],
          stdout := [], tsc_reads := 2 } := by
  refine ⟨by decide, ?_⟩
  have hD : deadline 100 g_zero_duration.duration_sec = some 101 := by decide
  have h1 : (100 : Int) < 101 := by decide
  have h2 : ¬ (101 : Int) < 101 := by decide
  simp only [worker_loop, hD, h1, h2, if_true, if_false,
    show g_zero_duration.simd_ins = 0 from rfl,
    run_simd_spin env_trap g_zero_duration _ (by decide)]
  rfl

/-- C7, amended: for `duration_sec < 0` and a clock that does not run
backwards, and for `duration_sec = 0` when the first sample is already
later than `start`, the loop condition is false at its first evaluation:
whatever the selector, the loop returns after that one sample with no
kernel call, the counter still 0 and the context unchanged. -/
theorem nonpositive_duration_runs_no_kernel (env : Env) (g : Globals) (start D t : Int)
    (rest : List Int) (w : World)
    (hd : g.duration_sec ≤ 0) (hD : deadline start g.duration_sec = some D)
    (hmono : start ≤ t) (h0 : g.duration_sec = 0 → start < t) :
    worker_loop env g start (t :: rest) { total := 0, loops := 0 } w =
      .ret { total := 0, loops := 0 } { w with trace := w.trace ++ [Event.sample t] } := by
  have hDe := deadline_eq _ _ _ hD
  have ht : ¬ t < D := by
    rcases lt_or_eq_of_le hd with h | h
    · omega
    · have := h0 h
      omega
  exact worker_loop_stop env g start D t rest _ w hD ht

theorem nonpositive_duration_runs_no_kernel_witness :
    g_bad_selector.duration_sec ≤ 0 ∧ deadline 100 g_bad_selector.duration_sec = some 100 ∧
    (100 : Int) ≤ 100 ∧ (g_bad_selector.duration_sec = 0 → (100 : Int) < 100) ∧
    worker_loop env_trap g_bad_selector 100 (100 :: [101]) { total := 0, loops := 0 }
        (start_world zeroed_td) =
      .ret { total := 0, loops := 0 }
        { start_world zeroed_td with
          trace := (start_world zeroed_td).trace ++ [Event.sample 100] } :=
  ⟨by decide, by decide, by decide, by decide,
    nonpositive_duration_runs_no_kernel env_trap g_bad_selector 100 100 100 [101]
      (start_world zeroed_td) (by decide) (by decide) (by decide) (by decide)⟩

/-- C6 fails on the code at `duration_sec = 0`: the worker runs the kernel
once in the grace second, leaves the loop with `loops = 1`, and the
division `loops / duration_sec` of line 202 is a division by zero; no
throughput line is printed. -/
theorem zero_duration_division_faults :
    worker_thread env_trap g_zero_duration [100, 100, 101] (start_world zeroed_td) =
      .fault
        { td := zeroed_td,
          trace := [Event.sample 100, Event.invoke Kernel.nop_loop, Event.sample 101],
          stdout := [Line.start_running 0 "nop_loop"], tsc_reads := 2 } := by
  have hD : deadline 100 g_zero_duration.duration_sec = some 101 := by decide
  have h1 : (100 : Int) < 101 := by decide
  have h2 : ¬ (101 : Int) < 101 := by decide
  have hdesc : instruction_desc_at env_trap 0 = some "nop_loop" := by decide
  have hz : to_ulong g_zero_duration.duration_sec = 0 := by decide
  simp only [worker_thread, hdesc, worker_loop, hD, h1, h2, if_true, if_false, hz,
    show g_zero_duration.simd_ins = 0 from rfl,
    run_simd_spin env_trap g_zero_duration _ (by decide)]
  rfl

/-- C8, as stated, fails: with selector 3 the worker first reads
`instruction_desc[3]`, past the three entries of the table; when that read
traps the worker faults before any dispatch, and when it yields a string and
`duration_sec = -1` the loop condition is false at once, `run_simd` is never
called and the worker returns normally after printing a throughput line. -/
theorem bad_selector_without_exit :
    worker_thread env_trap g_bad_selector_5s [100, 100, 106] (start_world zeroed_td) =
      .fault (start_world zeroed_td) ∧
    worker_thread env_stray g_bad_selector [100, 100] (start_world zeroed_td) =
      .ret ()
        { td := zeroed_td, trace := [Event.sample 100],
          stdout := [Line.start_running (-1) "?", Line.throughput 0], tsc_reads := 0 } := by
  constructor
  · have hdesc : instruction_desc_at env_trap g_bad_selector_5s.simd_ins = none := by decide
    simp only [worker_thread, hdesc]
  · have hdesc : instruction_desc_at env_stray g_bad_selector.simd_ins = some "?" := by decide
    have hD : deadline 100 g_bad_selector.duration_sec = some 100 := by decide
    have h2 : ¬ (100 : Int) < 100 := by decide
    have hz : ¬ to_ulong g_bad_selector.duration_sec = 0 := by decide
    have hq : to_long (0 / to_ulong g_bad_selector.duration_sec) = 0 := by decide
    simp only [worker_thread, hdesc, worker_loop, hD, h2, if_false, hz, hq]
    rfl

/-- C8, amended: for every selector outside 0, 1, 2, when the read of the
kernel name for the first printed line yields a string: if the first sample
at the loop condition is below `start + 1 + duration_sec`, the worker ends
in `exit(1)` at its first kernel dispatch, with no kernel run, the context
unchanged and no throughput line printed; if that sample is not below the
deadline, `run_simd` is never called, no step but that sample is taken, and
the worker does not end in `exit`. -/
theorem bad_selector_exits_at_first_dispatch (env : Env) (g : Globals) (start D t : Int)
    (rest : List Int) (w : World) (desc : String)
    (hsel : g.simd_ins ≠ 0 ∧ g.simd_ins ≠ 1 ∧ g.simd_ins ≠ 2)
    (hdesc : instruction_desc_at env g.simd_ins = some desc)
    (hD : deadline start g.duration_sec = some D) :
    (t < D →
      worker_thread env g (start :: t :: rest) w =
        .exit 1 { w with stdout := w.stdout ++ [Line.start_running g.duration_sec desc],
                         trace := w.trace ++ [Event.sample t],
                         tsc_reads := w.tsc_reads + 1 }) ∧
    (¬ t < D →
      (∀ s w1, worker_thread env g (start :: t :: rest) w ≠ .exit s w1) ∧
      (worker_thread env g (start :: t :: rest) w).world.trace =
        w.trace ++ [Event.sample t] ∧
      (worker_thread env g (start :: t :: rest) w).world.td = w.td) := by
  obtain ⟨h0, h1, h2⟩ := hsel
  constructor
  · intro ht
    simp only [worker_thread, hdesc, worker_loop, hD, ht, if_true, run_simd, h0, h1, h2,
      if_false]
    rfl
  · intro ht
    simp only [worker_thread, hdesc, worker_loop, hD, ht, if_false]
    by_cases hz : to_ulong g.duration_sec = 0
    · simp [hz, Outcome.world]
    · simp [hz, Outcome.world]

theorem bad_selector_exits_at_first_dispatch_witness :
    (g_bad_selector_5s.simd_ins ≠ 0 ∧ g_bad_selector_5s.simd_ins ≠ 1 ∧
      g_bad_selector_5s.simd_ins ≠ 2) ∧
    instruction_desc_at env_stray g_bad_selector_5s.simd_ins = some "?" ∧
    deadline 100 g_bad_selector_5s.duration_sec = some 106 ∧ (100 : Int) < 106 ∧
    worker_thread env_stray g_bad_selector_5s (100 :: 100 :: [106]) (start_world zeroed_td) =
      .exit 1
        { start_world zeroed_td with
          stdout := (start_world zeroed_td).stdout ++
            [Line.start_running g_bad_selector_5s.duration_sec "?"],
          trace := (start_world zeroed_td).trace ++ [Event.sample 100],
          tsc_reads := (start_world zeroed_td).tsc_reads + 1 } :=
  ⟨by decide, by decide, by decide, by decide,
    (bad_selector_exits_at_first_dispatch env_stray g_bad_selector_5s 100 106 100 [106]
      (start_world zeroed_td) "?" (by decide) (by decide) (by decide)).1 (by decide)⟩

end SimdStress
